import Mathlib

/-!
Shallow embedding of the CSV ingestion/normalization core of the sales
dashboard (the primary `parseCSV` implementation and its helpers).
Strings are modelled as `List Char`; JS `number` is modelled as `ℚ` for
the decimal amounts produced by `parseFloat` on the restricted alphabet
that reaches it here, and as `ℤ` for `parseInt` results.
-/

namespace Dashboard

/-- Whitespace characters stripped by JS `String.prototype.trim` that can
occur in this pipeline (ASCII whitespace, NBSP and the BOM/ZWNBSP). -/
def jsIsWhite (c : Char) : Bool :=
  c == ' ' || c == '\t' || c == '\n' || c == '\r' ||
  c == Char.ofNat 11 || c == Char.ofNat 12 ||
  c == Char.ofNat 0xA0 || c == Char.ofNat 0xFEFF

/-- JS `s.trim()`: drop leading and trailing whitespace. -/
def trimL (l : List Char) : List Char :=
  ((l.dropWhile jsIsWhite).reverse.dropWhile jsIsWhite).reverse

/-- JS `csv.replace(/^﻿/, '')`: strip at most one leading BOM. -/
def stripBOM : List Char → List Char
  | [] => []
  | c :: rest => if c == Char.ofNat 0xFEFF then rest else c :: rest

/-- JS `s.split(/\r?\n/)` scanning loop: a line break is `\n` or `\r\n`;
a bare `\r` is kept inside the line. -/
def splitLinesAux : List Char → List Char → List (List Char)
  | [], cur => [cur.reverse]
  | '\r' :: '\n' :: rest, cur => cur.reverse :: splitLinesAux rest []
  | '\n' :: rest, cur => cur.reverse :: splitLinesAux rest []
  | c :: rest, cur => splitLinesAux rest (c :: cur)

/-- JS `s.split(/\r?\n/)`. -/
def splitLines (l : List Char) : List (List Char) :=
  splitLinesAux l []

/-- Number of occurrences of `c`, as in `(line.match(/c/g) || []).length`. -/
def countChar (c : Char) (l : List Char) : Nat :=
  (l.filter (fun d => d == c)).length

/-- Delimiter detection: `semicolonCount > commaCount ? ';' : ','`. -/
def detectSep (l : List Char) : Char :=
  if countChar ',' l < countChar ';' l then ';' else ','

/-- The character-scan of `splitLine`: `cur` is the current field
(reversed), `q` the `inQuotes` flag.  A doubled `"` emits a literal `"`
without toggling; a single `"` toggles `q`; the separator outside quotes
ends the field (fields are pushed trimmed); the final field is always
pushed. -/
def splitLineAux (sep : Char) : List Char → List Char → Bool → List (List Char)
  | '"' :: '"' :: rest, cur, q => splitLineAux sep rest ('"' :: cur) q
  | '"' :: rest, cur, q => splitLineAux sep rest cur (!q)
  | c :: rest, cur, q =>
      if c == sep && !q then trimL cur.reverse :: splitLineAux sep rest [] q
      else splitLineAux sep rest (c :: cur) q
  | [], cur, _ => [trimL cur.reverse]

/-- `splitLine` from the source: quote-aware split of one line on `sep`. -/
def splitLine (sep : Char) (line : List Char) : List (List Char) :=
  splitLineAux sep line [] false

/-- JS `toLowerCase` restricted to the characters this pipeline meets:
ASCII letters and the precomposed Latin-1 letters. -/
def jsToLower (c : Char) : Char :=
  if 'A' ≤ c ∧ c ≤ 'Z' then Char.ofNat (c.toNat + 32)
  else if (0xC0 ≤ c.toNat ∧ c.toNat ≤ 0xD6) ∨ (0xD8 ≤ c.toNat ∧ c.toNat ≤ 0xDE) then
    Char.ofNat (c.toNat + 32)
  else c

/-- Unicode NFD decompositions of the precomposed lowercase Latin letters
that occur in Portuguese headers (base letter followed by a combining
mark in U+0300..U+036F). -/
def nfdTable : List (Char × List Char) :=
  [('á', ['a', Char.ofNat 0x301]), ('à', ['a', Char.ofNat 0x300]),
   ('â', ['a', Char.ofNat 0x302]), ('ã', ['a', Char.ofNat 0x303]),
   ('ä', ['a', Char.ofNat 0x308]),
   ('é', ['e', Char.ofNat 0x301]), ('è', ['e', Char.ofNat 0x300]),
   ('ê', ['e', Char.ofNat 0x302]), ('ë', ['e', Char.ofNat 0x308]),
   ('í', ['i', Char.ofNat 0x301]), ('ì', ['i', Char.ofNat 0x300]),
   ('î', ['i', Char.ofNat 0x302]), ('ï', ['i', Char.ofNat 0x308]),
   ('ó', ['o', Char.ofNat 0x301]), ('ò', ['o', Char.ofNat 0x300]),
   ('ô', ['o', Char.ofNat 0x302]), ('õ', ['o', Char.ofNat 0x303]),
   ('ö', ['o', Char.ofNat 0x308]),
   ('ú', ['u', Char.ofNat 0x301]), ('ù', ['u', Char.ofNat 0x300]),
   ('û', ['u', Char.ofNat 0x302]), ('ü', ['u', Char.ofNat 0x308]),
   ('ç', ['c', Char.ofNat 0x327]), ('ñ', ['n', Char.ofNat 0x303])]

/-- JS `normalize("NFD")`, characterwise, for the table above; other
characters are left unchanged. -/
def nfdChar (c : Char) : List Char :=
  match nfdTable.lookup c with
  | some l => l
  | none => [c]

/-- Membership in the combining-mark range `[̀-ͯ]`. -/
def isCombining (c : Char) : Bool :=
  0x300 ≤ c.toNat && c.toNat ≤ 0x36F

/-- Membership in the header-key alphabet `[a-z0-9_]`. -/
def isKeyChar (c : Char) : Bool :=
  ('a' ≤ c && c ≤ 'z') || ('0' ≤ c && c ≤ '9') || c == '_'

/-- Header-cell normalization from the source:
`h.toLowerCase().normalize("NFD").replace(/[̀-ͯ]/g, "").replace(/[^a-z0-9_]/g, "_")`. -/
def normalizeHeader (h : List Char) : List Char :=
  ((((h.map jsToLower).flatMap nfdChar).filter (fun c => !isCombining c)).map
    (fun c => if isKeyChar c then c else '_'))

/-- JS `hay.includes(needle)` on char lists. -/
def includesStr (hay : List Char) (needle : String) : Bool :=
  hay.tails.any (fun t => needle.data.isPrefixOf t)

/-- Candidate-substring test for the `data` column. -/
def dataKey (h : List Char) : Bool := includesStr h "data"

/-- Candidate-substring test for the `produto` column. -/
def produtoKey (h : List Char) : Bool :=
  includesStr h "produto" || includesStr h "curso" || includesStr h "item"

/-- Candidate-substring test for the `quantidade` column. -/
def quantidadeKey (h : List Char) : Bool :=
  includesStr h "quantidade" || includesStr h "vendas" || includesStr h "qtd"

/-- Candidate-substring test for the `receita` column. -/
def receitaKey (h : List Char) : Bool :=
  includesStr h "receita" || includesStr h "valor" || includesStr h "total" ||
  includesStr h "faturamento"

/-- Candidate-substring test for the `origem` column. -/
def origemKey (h : List Char) : Bool :=
  includesStr h "origem" || includesStr h "fonte" || includesStr h "utm" ||
  includesStr h "canal"

/-- Candidate-substring test for the `custo` column. -/
def custoKey (h : List Char) : Bool :=
  includesStr h "custo" || includesStr h "investimento"

/-- JS `headers.findIndex(p)`: first index satisfying `p`, else `-1`. -/
def findHeader (p : List Char → Bool) (hs : List (List Char)) : Int :=
  match hs.findIdx? p with
  | some n => (n : Int)
  | none => -1

/-- The `idx` object: column index (or `-1`) of each semantic field. -/
structure ColMap where
  data : Int
  produto : Int
  quantidade : Int
  receita : Int
  origem : Int
  custo : Int
deriving Repr, DecidableEq

/-- Building `idx` from the raw header row (each header cell is
normalized first, as in `splitLine(lines[0]).map(...)`). -/
def resolveCols (headerCells : List (List Char)) : ColMap :=
  let hs := headerCells.map normalizeHeader
  { data := findHeader dataKey hs
    produto := findHeader produtoKey hs
    quantidade := findHeader quantidadeKey hs
    receita := findHeader receitaKey hs
    origem := findHeader origemKey hs
    custo := findHeader custoKey hs }

/-- The output record (`SaleRecord` of `types.ts`). -/
structure SaleRecord where
  data : String
  produto : String
  quantidade_vendida : Int
  receita : ℚ
  origem : String
  custo_aquisicao : ℚ
deriving Repr, DecidableEq

/-- `getVal` from the source: `(i >= 0 && i < values.length) ? values[i] : ''`. -/
def getVal (values : List (List Char)) (i : Int) : List Char :=
  if 0 ≤ i ∧ i < (values.length : Int) then values.getD i.toNat [] else []

/-- Value of a decimal digit list read most-significant first. -/
def digitsToNat (l : List Char) : Nat :=
  l.foldl (fun n c => 10 * n + (c.toNat - 48)) 0

/-- JS `parseFloat` on the post-normalization alphabet (digits, `.`, `-`,
plus a possible `+` sign and leading whitespace; no exponent can occur
after the strip): optional sign, integer digits, optional fraction;
`none` models `NaN` (no digit consumed).  Trailing garbage is ignored.
The value `± (intDigits.fracDigits)` is built in one step as
`± digits(int ++ frac) / 10 ^ |frac|`, which equals
`± (digits int + digits frac / 10 ^ |frac|)`. -/
def jsParseFloat (l : List Char) : Option ℚ :=
  let l1 := l.dropWhile jsIsWhite
  let sgn : Bool × List Char :=
    match l1 with
    | '-' :: rest => (true, rest)
    | '+' :: rest => (false, rest)
    | _ => (false, l1)
  let intDs := sgn.2.takeWhile Char.isDigit
  let rest := sgn.2.dropWhile Char.isDigit
  let fracDs :=
    match rest with
    | '.' :: r => r.takeWhile Char.isDigit
    | _ => []
  if intDs.isEmpty ∧ fracDs.isEmpty then none
  else
    some (mkRat ((if sgn.1 then -1 else 1) * (digitsToNat (intDs ++ fracDs) : Int))
      (10 ^ fracDs.length))

/-- The normalization chain of `parseNumber`:
`val.replace(/\./g, '').replace(',', '.').replace(/[^\d.-]/g, '')`
(the second `replace` has a string pattern, so only the first `,` is
replaced). -/
def replaceFirstComma : List Char → List Char
  | [] => []
  | c :: rest => if c == ',' then '.' :: rest else c :: replaceFirstComma rest

/-- Strip every character that is not a digit, `.` or `-`
(`.replace(/[^\d.-]/g, '')`). -/
def stripNonNumeric (l : List Char) : List Char :=
  l.filter (fun c => c.isDigit || c == '.' || c == '-')

/-- `parseNumber` from the source: empty input gives 0; otherwise remove
all dots, replace the first comma by a dot, strip the rest, `parseFloat`,
and `|| 0` maps `NaN` (and `-0`) to 0. -/
def parseNumber (val : List Char) : ℚ :=
  if val.isEmpty then 0
  else
    let normalized :=
      stripNonNumeric (replaceFirstComma (val.filter (fun c => !(c == '.'))))
    match jsParseFloat normalized with
    | none => 0
    | some q => q

/-- The quantity conversion from the source:
`parseInt(raw.replace(/[^\d]/g, '')) || 0` — strip non-digits, parse the
remaining digit string, `NaN` (empty) gives 0. -/
def parseQuantity (raw : List Char) : Int :=
  let ds := raw.filter Char.isDigit
  if ds.isEmpty then 0 else (digitsToNat ds : Int)

/-- Normalization of one data row into a `SaleRecord`, given `idx`. -/
def mkRecord (m : ColMap) (values : List (List Char)) : SaleRecord :=
  { data := String.mk (getVal values m.data)
    produto :=
      let v := getVal values m.produto
      if v.isEmpty then "Produto Indefinido" else String.mk v
    quantidade_vendida := parseQuantity (getVal values m.quantidade)
    receita := parseNumber (getVal values m.receita)
    origem :=
      let v := getVal values m.origem
      if v.isEmpty then "Direto" else String.mk v
    custo_aquisicao := parseNumber (getVal values m.custo) }

/-- The output filter: `record.receita > 0 || record.quantidade_vendida > 0`. -/
def keepRecord (r : SaleRecord) : Bool :=
  decide (0 < r.receita) || decide (0 < r.quantidade_vendida)

/-- Processing of the data rows once the separator is fixed: resolve the
column map from the header, normalize every following row, filter. -/
def parseRows (sep : Char) (header : List Char) (rows : List (List Char)) :
    List SaleRecord :=
  let m := resolveCols (splitLine sep header)
  (rows.map (fun line => mkRecord m (splitLine sep line))).filter keepRecord

/-- The non-blank lines of the input: strip a leading BOM, split on
`\r?\n`, drop lines that trim to nothing. -/
def nonBlankLines (csv : String) : List (List Char) :=
  (splitLines (stripBOM csv.data)).filter (fun l => !(trimL l).isEmpty)

/-- `parseCSV` from the source (primary variant): empty/whitespace input
gives `[]`; fewer than 2 non-blank lines gives `[]`; otherwise detect the
separator on the first line and process the remaining rows. -/
def parseCSV (csv : String) : List SaleRecord :=
  if (trimL csv.data).isEmpty then []
  else
    match nonBlankLines csv with
    | [] => []
    | [_] => []
    | first :: rest => parseRows (detectSep first) first rest


/-! ### Helper lemmas -/

lemma isEmpty_eq_nil {l : List Char} (h : l.isEmpty = true) : l = [] := by
  cases l with
  | nil => rfl
  | cons a t => simp [List.isEmpty] at h

lemma dropWhile_head_false {p : Char → Bool} {l : List Char} {c : Char} {t : List Char}
    (h : l.dropWhile p = c :: t) : p c = false := by
  have hne : l.dropWhile p ≠ [] := by simp [h]
  have := List.head_dropWhile_not p l hne
  simpa [h] using this

lemma dropWhile_eq_self_of_head {p : Char → Bool} :
    ∀ {l : List Char}, (∀ c t, l = c :: t → p c = false) → l.dropWhile p = l
  | [], _ => rfl
  | c :: t, h => by simp [List.dropWhile_cons, h c t rfl]

lemma mem_takeWhile_sat {p : Char → Bool} :
    ∀ {l : List Char} {c : Char}, c ∈ l.takeWhile p → p c = true := by
  intro l
  induction l with
  | nil => intro c h; simp [List.takeWhile] at h
  | cons a t ih =>
      intro c h
      rw [List.takeWhile_cons] at h
      by_cases hpa : p a
      · simp [hpa] at h
        rcases h with h | h
        · simpa [h] using hpa
        · exact ih h
      · simp [hpa] at h

lemma trimL_eq_nil_iff {l : List Char} :
    trimL l = [] ↔ ∀ c ∈ l, jsIsWhite c = true := by
  unfold trimL
  rw [List.reverse_eq_nil_iff, List.dropWhile_eq_nil_iff]
  constructor
  · intro h c hc
    have hsplit := List.takeWhile_append_dropWhile (p := jsIsWhite) (l := l)
    rw [← hsplit] at hc
    rcases List.mem_append.1 hc with h1 | h2
    · exact mem_takeWhile_sat h1
    · exact h c (List.mem_reverse.2 h2)
  · intro h c hc
    exact h c ((List.dropWhile_sublist _).subset (List.mem_reverse.1 hc))

lemma trimL_idem (l : List Char) : trimL (trimL l) = trimL l := by
  cases hB : (l.dropWhile jsIsWhite).reverse.dropWhile jsIsWhite with
  | nil =>
      have h1 : trimL l = [] := by unfold trimL; rw [hB]; rfl
      rw [h1]
      rfl
  | cons b t =>
      have hb : jsIsWhite b = false := dropWhile_head_false hB
      have hTL : trimL l = (b :: t).reverse := by unfold trimL; rw [hB]
      have hAne : l.dropWhile jsIsWhite ≠ [] := by
        intro hA
        rw [hA] at hB
        simp at hB
      obtain ⟨a, A', hA⟩ := List.exists_cons_of_ne_nil hAne
      have ha : jsIsWhite a = false := dropWhile_head_false hA
      obtain ⟨pre, hpre⟩ :=
        (hB ▸ List.dropWhile_suffix (l := (l.dropWhile jsIsWhite).reverse) jsIsWhite)
      have hrev : (b :: t).reverse ++ pre.reverse = l.dropWhile jsIsWhite := by
        have := congrArg List.reverse hpre
        simpa using this
      cases hBR : (b :: t).reverse with
      | nil => simp at hBR
      | cons c cs =>
          rw [hBR, hA] at hrev
          have hceq : c = a := by
            have h2 : c :: (cs ++ pre.reverse) = a :: A' := by simpa using hrev
            injection h2
          rw [hTL, hBR]
          unfold trimL
          rw [List.dropWhile_cons_of_neg (by rw [hceq]; simp [ha])]
          have hcs : (c :: cs).reverse = b :: t := by rw [← hBR]; simp
          rw [hcs]
          rw [List.dropWhile_cons_of_neg (by simp [hb])]
          exact hBR

lemma splitLineAux_ne_nil (sep : Char) (l cur : List Char) (q : Bool) :
    splitLineAux sep l cur q ≠ [] := by
  induction l, cur, q using splitLineAux.induct sep with
  | case1 rest cur q ih => simp only [splitLineAux]; assumption
  | case2 rest cur q h ih => simp only [splitLineAux]; assumption
  | case3 c rest cur q h1 h2 hcond ih =>
      simp only [splitLineAux]
      split
      · simp
      · rw [Bool.and_eq_true, beq_iff_eq, Bool.not_eq_true'] at hcond
        simp_all
  | case4 c rest cur q h1 h2 hcond ih =>
      simp only [splitLineAux]
      split
      · rw [Bool.and_eq_true, beq_iff_eq, Bool.not_eq_true'] at hcond
        simp_all
      · assumption
  | case5 cur q => simp [splitLineAux]

lemma splitLineAux_mem_trimmed (sep : Char) (l cur : List Char) (q : Bool) :
    ∀ f ∈ splitLineAux sep l cur q, trimL f = f := by
  induction l, cur, q using splitLineAux.induct sep with
  | case1 rest cur q ih =>
      intro f hf
      simp only [splitLineAux] at hf
      exact ih f hf
  | case2 rest cur q h ih =>
      intro f hf
      simp only [splitLineAux] at hf
      exact ih f hf
  | case3 c rest cur q h1 h2 hcond ih =>
      intro f hf
      simp only [splitLineAux] at hf
      split at hf
      · rcases List.mem_cons.1 hf with rfl | hf
        · exact trimL_idem _
        · exact ih f hf
      · rw [Bool.and_eq_true, beq_iff_eq, Bool.not_eq_true'] at hcond
        simp_all
  | case4 c rest cur q h1 h2 hcond ih =>
      intro f hf
      simp only [splitLineAux] at hf
      split at hf
      · rw [Bool.and_eq_true, beq_iff_eq, Bool.not_eq_true'] at hcond
        simp_all
      · exact ih f hf
  | case5 cur q =>
      intro f hf
      simp only [splitLineAux, List.mem_singleton] at hf
      subst hf
      exact trimL_idem _

lemma stripBOM_subset {l : List Char} {c : Char} (h : c ∈ stripBOM l) : c ∈ l := by
  cases l with
  | nil => simp [stripBOM] at h
  | cons a rest =>
      rw [stripBOM] at h
      split at h
      · exact List.mem_cons_of_mem _ h
      · exact h

lemma splitLinesAux_chars :
    ∀ (l cur : List Char), ∀ ln ∈ splitLinesAux l cur, ∀ c ∈ ln, c ∈ l ∨ c ∈ cur := by
  intro l cur
  induction l, cur using splitLinesAux.induct with
  | case1 cur =>
      intro ln hln c hc
      simp only [splitLinesAux, List.mem_singleton] at hln
      subst hln
      exact Or.inr (List.mem_reverse.1 hc)
  | case2 rest cur ih =>
      intro ln hln c hc
      simp only [splitLinesAux] at hln
      rcases List.mem_cons.1 hln with rfl | hln
      · exact Or.inr (List.mem_reverse.1 hc)
      · rcases ih ln hln c hc with h1 | h1
        · exact Or.inl (by simp [h1])
        · simp at h1
  | case3 rest cur ih =>
      intro ln hln c hc
      simp only [splitLinesAux] at hln
      rcases List.mem_cons.1 hln with rfl | hln
      · exact Or.inr (List.mem_reverse.1 hc)
      · rcases ih ln hln c hc with h1 | h1
        · exact Or.inl (by simp [h1])
        · simp at h1
  | case4 ch rest cur h1 h2 ih =>
      intro ln hln c hc
      simp only [splitLinesAux] at hln
      rcases ih ln hln c hc with hr | hr
      · exact Or.inl (List.mem_cons_of_mem _ hr)
      · rcases List.mem_cons.1 hr with rfl | hr
        · exact Or.inl (List.mem_cons_self _ _)
        · exact Or.inr hr

lemma nonBlankLines_eq_nil_of_white {csv : String}
    (h : trimL csv.data = []) : nonBlankLines csv = [] := by
  have hw := trimL_eq_nil_iff.1 h
  unfold nonBlankLines splitLines
  rw [List.filter_eq_nil_iff]
  intro ln hln
  have hlnw : ∀ c ∈ ln, jsIsWhite c = true := by
    intro c hc
    rcases splitLinesAux_chars (stripBOM csv.data) [] ln hln c hc with h1 | h1
    · exact hw c (stripBOM_subset h1)
    · simp at h1
  have htn : trimL ln = [] := trimL_eq_nil_iff.2 hlnw
  simp [htn]

lemma parseCSV_eq_parseRows {csv : String} {first : List Char}
    {rest : List (List Char)} (h : nonBlankLines csv = first :: rest)
    (hne : rest ≠ []) :
    parseCSV csv = parseRows (detectSep first) first rest := by
  obtain ⟨b, bs, rfl⟩ := List.exists_cons_of_ne_nil hne
  unfold parseCSV
  rw [if_neg, h]
  intro hemp
  have hnil := nonBlankLines_eq_nil_of_white (isEmpty_eq_nil hemp)
  rw [h] at hnil
  exact List.noConfusion hnil

lemma mem_parseCSV {csv : String} {r : SaleRecord} (h : r ∈ parseCSV csv) :
    keepRecord r = true ∧ ∃ m values, r = mkRecord m values := by
  unfold parseCSV at h
  split at h
  · simp at h
  · split at h
    · simp at h
    · simp at h
    · unfold parseRows at h
      rw [List.mem_filter] at h
      obtain ⟨hmem, hkeep⟩ := h
      obtain ⟨line, -, rfl⟩ := List.mem_map.1 hmem
      exact ⟨hkeep, _, _, rfl⟩

lemma findHeader_spec {p : List Char → Bool} {hs : List (List Char)} {n : Nat}
    (h : findHeader p hs = (n : Int)) :
    p (hs.getD n []) = true ∧ ∀ j < n, p (hs.getD j []) = false := by
  unfold findHeader at h
  cases hf : hs.findIdx? p with
  | none =>
      rw [hf] at h
      have h2 : (-1 : Int) = (n : Int) := h
      omega
  | some m =>
      rw [hf] at h
      have h2 : (m : Int) = (n : Int) := h
      have hm : m = n := by exact_mod_cast h2
      subst hm
      obtain ⟨hlt, hp, hj⟩ := List.findIdx?_eq_some_iff_getElem.mp hf
      refine ⟨?_, ?_⟩
      · rw [List.getD_eq_getElem hs [] hlt]
        exact hp
      · intro j hjm
        have hjl : j < hs.length := Nat.lt_trans hjm hlt
        rw [List.getD_eq_getElem hs [] hjl]
        exact Bool.not_eq_true _ ▸ hj j hjm


/-! ### Claim theorems -/

/-- Claim C1: every `SaleRecord` in the sequence returned by `parseCSV`
satisfies `receita > 0` or `quantidade_vendida > 0`; a row whose
normalized record has zero revenue and zero quantity is dropped by the
output filter. -/
theorem C1_output_filter_invariant (csv : String) (r : SaleRecord)
    (h : r ∈ parseCSV csv) : 0 < r.receita ∨ 0 < r.quantidade_vendida := by
  obtain ⟨hk, -⟩ := mem_parseCSV h
  unfold keepRecord at hk
  simpa using hk

/-- Witness for C1: the record parsed from the input "Receita\n7"
satisfies the invariant. -/
theorem C1_output_filter_invariant_witness :
    0 < (SaleRecord.mk "" "Produto Indefinido" 0 7 "Direto" 0).receita ∨
      0 < (SaleRecord.mk "" "Produto Indefinido" 0 7 "Direto" 0).quantidade_vendida :=
  C1_output_filter_invariant "Receita\n7"
    (SaleRecord.mk "" "Produto Indefinido" 0 7 "Direto" 0) (by decide)

/-- Claim C2, evaluated on the code: of the spec's four numeric-parsing
vectors, three hold, but `parseNumber "1234.56"` yields `123456`, not
`1234.56` (`mkRat 123456 100`): the parser removes every dot before
parsing, so a plain-decimal value is scaled by a power of ten. -/
theorem C2_parseNumber_eval :
    parseNumber "1234.56".data = 123456 ∧
    parseNumber "1.234,56".data = mkRat 123456 100 ∧
    parseNumber "R$ 50,00".data = 50 ∧
    parseNumber "".data = 0 := by
  decide

/-- Claim C3: the end-to-end example input parses to exactly one record
(the second data row, with zero revenue and zero quantity, is dropped). -/
theorem C3_end_to_end :
    parseCSV "Data;Produto;Quantidade;Receita;Origem\n2024-01-05;Curso A;3;150,00;Instagram\n2024-01-06;;0;0;Facebook" =
      [{ data := "2024-01-05", produto := "Curso A", quantidade_vendida := 3,
         receita := 150, origem := "Instagram", custo_aquisicao := 0 }] := by
  decide

/-- Claim C4: the delimiter is fixed by the first non-blank line alone —
`;` exactly when it has strictly more `;` than `,`, else `,` — and the
whole parse is driven by that one choice; `"a;b,c;d"` selects `;` and
`"a,b,c"` selects `,`. -/
theorem C4_delimiter_detection :
    (∀ (csv : String) (first : List Char) (rest : List (List Char)),
        nonBlankLines csv = first :: rest → rest ≠ [] →
        parseCSV csv = parseRows (detectSep first) first rest) ∧
    (∀ l : List Char, detectSep l = ';' ↔ countChar ',' l < countChar ';' l) ∧
    detectSep "a;b,c;d".data = ';' ∧ detectSep "a,b,c".data = ',' := by
  refine ⟨?_, ?_, by decide, by decide⟩
  · intro csv first rest h hne
    exact parseCSV_eq_parseRows h hne
  · intro l
    unfold detectSep
    split <;> rename_i hc
    · exact iff_of_true rfl hc
    · exact iff_of_false (by decide) hc

/-- Witness for C4 at the two-line input "p;q\nr". -/
theorem C4_delimiter_detection_witness :
    parseCSV "p;q\nr" = parseRows (detectSep "p;q".data) "p;q".data ["r".data] :=
  C4_delimiter_detection.1 "p;q\nr" "p;q".data ["r".data] (by decide) (by decide)

/-- Claim C5: quote-aware field splitting: the output always contains a
trailing field (it is never empty, even for an empty line), every emitted
field is trimmed, a doubled quote emits one literal quote, a quoted
delimiter does not split, and a trailing empty field is emitted. -/
theorem C5_splitLine_quotes :
    (∀ (sep : Char) (line : List Char), splitLine sep line ≠ []) ∧
    (∀ (sep : Char) (line : List Char), ∀ f ∈ splitLine sep line, trimL f = f) ∧
    splitLine ',' "\"He said \"\"hi\"\"\"".data = ["He said \"hi\"".data] ∧
    splitLine ',' "a,\"b,c\",d".data = ["a".data, "b,c".data, "d".data] ∧
    splitLine ',' "a,".data = ["a".data, []] := by
  refine ⟨?_, ?_, by decide, by decide, by decide⟩
  · intro sep line
    exact splitLineAux_ne_nil sep line [] false
  · intro sep line
    exact splitLineAux_mem_trimmed sep line [] false

/-- Witness for C5: applying the two universally quantified parts at a
concrete line. -/
theorem C5_splitLine_quotes_witness :
    splitLine ';' "x ;y".data ≠ [] ∧ trimL "x".data = "x".data :=
  ⟨C5_splitLine_quotes.1 ';' "x ;y".data,
   C5_splitLine_quotes.2.1 ';' "x ;y".data "x".data (by decide)⟩

/-- Claim C6: header matching resolves the revenue field to the first
column (left to right) whose normalized header contains a candidate
substring; normalization lowercases, strips diacritics and collapses any
character outside `[a-z0-9_]` to `_`, so `"Receita (R$)"` (normalized to
`"receita__r__"`) matches the revenue field, and the accented
`"Preço do Curso"` matches the product field. -/
theorem C6_header_matching :
    (∀ (headers : List (List Char)) (n : Nat),
        (resolveCols headers).receita = (n : Int) →
        receitaKey (normalizeHeader (headers.getD n [])) = true ∧
        ∀ j < n, receitaKey (normalizeHeader (headers.getD j [])) = false) ∧
    normalizeHeader "Receita (R$)".data = "receita__r__".data ∧
    (resolveCols ["Receita (R$)".data]).receita = 0 ∧
    (resolveCols ["Data".data, "Preço do Curso".data]).produto = 1 := by
  refine ⟨?_, by decide, by decide, by decide⟩
  intro headers n h
  have h2 : findHeader receitaKey (headers.map normalizeHeader) = (n : Int) := h
  obtain ⟨hp, hj⟩ := findHeader_spec h2
  have hlen : n < headers.length := by
    by_contra hge
    have : (headers.map normalizeHeader).getD n [] = [] := by
      apply List.getD_eq_default
      simpa using Nat.le_of_not_lt hge
    rw [this] at hp
    exact absurd hp (by decide)
  refine ⟨?_, ?_⟩
  · have hg : (headers.map normalizeHeader).getD n [] =
        normalizeHeader (headers.getD n []) := by
      rw [List.getD_eq_getElem _ _ (by simpa using hlen),
        List.getD_eq_getElem _ _ hlen, List.getElem_map]
    rw [← hg]
    exact hp
  · intro j hjn
    have hjl : j < headers.length := Nat.lt_trans hjn hlen
    have hg : (headers.map normalizeHeader).getD j [] =
        normalizeHeader (headers.getD j []) := by
      rw [List.getD_eq_getElem _ _ (by simpa using hjl),
        List.getD_eq_getElem _ _ hjl, List.getElem_map]
    rw [← hg]
    exact hj j hjn

/-- Witness for C6 at the single-cell header `["Receita (R$)"]`. -/
theorem C6_header_matching_witness :
    receitaKey (normalizeHeader (["Receita (R$)".data].getD 0 [])) = true ∧
    ∀ j < 0, receitaKey (normalizeHeader (["Receita (R$)".data].getD j [])) = false :=
  C6_header_matching.1 ["Receita (R$)".data] 0 (by decide)

/-- Claim C7: an input that leaves fewer than two non-blank lines (after
BOM stripping, newline splitting and blank-line removal) parses to the
empty sequence; the parser is total, so no exception can arise. -/
theorem C7_too_few_lines (csv : String)
    (h : (nonBlankLines csv).length < 2) : parseCSV csv = [] := by
  unfold parseCSV
  split
  · rfl
  · split
    · rfl
    · rfl
    · rename_i first b bs heq
      rw [heq] at h
      simp at h
      exact absurd (List.length_eq_zero.mp (by omega)) bs

/-- Witness for C7 on a whitespace-only input. -/
theorem C7_too_few_lines_witness : parseCSV "   \n  \n" = [] :=
  C7_too_few_lines "   \n  \n" (by decide)

/-- Claim C8: the quantity field strips non-digits and parses the rest as
an integer (0 on empty), so it is always non-negative; consequently every
returned record has non-negative `quantidade_vendida`. -/
theorem C8_quantity_nonneg :
    (∀ raw : List Char, 0 ≤ parseQuantity raw) ∧
    parseQuantity "a1b2".data = 12 ∧ parseQuantity "xy".data = 0 ∧
    (∀ (csv : String) (r : SaleRecord), r ∈ parseCSV csv →
      0 ≤ r.quantidade_vendida) := by
  have hq : ∀ raw : List Char, 0 ≤ parseQuantity raw := by
    intro raw
    show 0 ≤ (if (List.filter Char.isDigit raw).isEmpty = true then 0
      else ((digitsToNat (List.filter Char.isDigit raw) : Int)))
    split
    · exact le_refl 0
    · exact Int.natCast_nonneg _
  refine ⟨hq, by decide, by decide, ?_⟩
  intro csv r h
  obtain ⟨-, m, values, rfl⟩ := mem_parseCSV h
  exact hq (getVal values m.quantidade)

/-- Witness for C8 at the input "Qtd\n2". -/
theorem C8_quantity_nonneg_witness :
    0 ≤ (SaleRecord.mk "" "Produto Indefinido" 2 0 "Direto" 0).quantidade_vendida :=
  C8_quantity_nonneg.2.2.2 "Qtd\n2"
    (SaleRecord.mk "" "Produto Indefinido" 2 0 "Direto" 0) (by decide)

/-- Claim C9: a mapped column index that is absent (negative) or at least
the row's field count reads as the empty string — `getVal` is total — and
a blank product or source field becomes the sentinel "Produto Indefinido"
or "Direto" in the built record. -/
theorem C9_defaults :
    (∀ (values : List (List Char)) (i : Int),
        i < 0 ∨ (values.length : Int) ≤ i → getVal values i = []) ∧
    (∀ (m : ColMap) (values : List (List Char)),
        getVal values m.produto = [] →
        (mkRecord m values).produto = "Produto Indefinido") ∧
    (∀ (m : ColMap) (values : List (List Char)),
        getVal values m.origem = [] →
        (mkRecord m values).origem = "Direto") := by
  refine ⟨?_, ?_, ?_⟩
  · intro values i h
    unfold getVal
    rw [if_neg]
    intro ⟨h0, hlen⟩
    omega
  · intro m values h
    show (if (getVal values m.produto).isEmpty then "Produto Indefinido"
      else String.mk (getVal values m.produto)) = "Produto Indefinido"
    rw [h]
    rfl
  · intro m values h
    show (if (getVal values m.origem).isEmpty then "Direto"
      else String.mk (getVal values m.origem)) = "Direto"
    rw [h]
    rfl

/-- Witness for C9 at an empty row and an all-absent column map. -/
theorem C9_defaults_witness :
    getVal [] (3 : Int) = [] ∧
    (mkRecord ⟨-1, -1, -1, -1, -1, -1⟩ []).produto = "Produto Indefinido" ∧
    (mkRecord ⟨-1, -1, -1, -1, -1, -1⟩ []).origem = "Direto" :=
  ⟨C9_defaults.1 [] 3 (Or.inr (by decide)),
   C9_defaults.2.1 ⟨-1, -1, -1, -1, -1, -1⟩ [] (by decide),
   C9_defaults.2.2 ⟨-1, -1, -1, -1, -1, -1⟩ [] (by decide)⟩

/-- Claim C10: returned revenue is not guaranteed non-negative: the
numeric parser keeps a leading minus ("-10" parses to -10) and a
negative-revenue record survives the filter when its quantity is
positive. -/
theorem C10_negative_revenue_possible :
    parseNumber "-10".data = -10 ∧
    ∃ r ∈ parseCSV "Receita;Quantidade\n-10;5", r.receita < 0 :=
  ⟨by decide,
   SaleRecord.mk "" "Produto Indefinido" 5 (-10) "Direto" 0, by decide, by decide⟩

end Dashboard
